import Mathlib

/-!
Verification of the chat-history statistics tool (`chat_stats.py` /
`view_chat_history.py`): a shallow embedding of the canonical message
shape, the timeline deduplicator, the global timestamp sort, and the
work-time reconstructor `calculate_total_time`, together with theorems
settling the specification claims about them.

Time is modelled in integer microseconds (the resolution of Python's
`datetime`/`timedelta`); durations are `Int` values in microseconds.
-/

/-- One content block of a message body: a typed segment carrying its
text (the `text` field is meaningful when `type = "text"`). -/
structure ContentBlock where
  type : String
  text : String
deriving DecidableEq, Inhabited

/-- The canonical in-memory message shape produced by the record
normalizers (`parse_claude_code_line` / `parse_kernelcat_line`):
fields `type`, `timestamp`, `uuid`, `message.content`, `session_id`,
`has_tool_use`, `has_tool_result` of the Python message dict. -/
structure Message where
  type : String
  timestamp : String
  uuid : String
  content : List ContentBlock
  session_id : String
  has_tool_use : Bool
  has_tool_result : Bool
deriving DecidableEq, Inhabited

/-- A collected response event inside a burst: `{'time': ...,
'has_tool_use': ..., 'has_tool_result': ...}` from
`calculate_total_time`, with the parsed time in microseconds. -/
structure Event where
  time : Int
  has_tool_use : Bool
  has_tool_result : Bool
deriving DecidableEq, Inhabited

/-- An idle period `{'start': ..., 'end': ..., 'duration': ...}`
recorded by `calculate_total_time` (the `end` key is spelled `end_`
because `end` is a Lean keyword). -/
structure IdlePeriod where
  start : Int
  end_ : Int
  duration : Int
deriving DecidableEq, Inhabited

/-- A long-response record appended to `long_responses` by
`calculate_total_time`. -/
structure LongResponse where
  user_question : String
  start_time : Int
  end_time : Int
  total_duration : Int
  active_duration : Int
  idle_periods : List IdlePeriod
  assistant_messages : Nat
  tool_uses : Nat
deriving DecidableEq, Inhabited

/-! ### Timestamp parsing

The source parses timestamps with
`datetime.fromisoformat(ts.replace('Z', '+00:00'))`.  The model below
reproduces that for the timestamp shapes the logs contain:
`YYYY-MM-DDTHH:MM:SS`, optionally followed by a fractional-second part
`.d+` and a UTC offset `+HH:MM`/`-HH:MM`; any other shape parses to
`none` (in Python: `ValueError`, caught by the burst-level handler).
A timestamp with no offset is taken at offset zero, and the result is
microseconds since the Unix epoch. -/

/-- Read exactly `k` decimal digits, accumulating into `acc`. -/
def readNatFixedAux : Nat → Nat → List Char → Option (Nat × List Char)
  | 0, acc, cs => some (acc, cs)
  | _ + 1, _, [] => none
  | k + 1, acc, c :: cs =>
    if c.isDigit then readNatFixedAux k (acc * 10 + (c.toNat - 48)) cs else none

/-- Read exactly `k` decimal digits. -/
def readNatFixed (k : Nat) (cs : List Char) : Option (Nat × List Char) :=
  readNatFixedAux k 0 cs

/-- Consume one expected literal character. -/
def expectChar (c : Char) : List Char → Option (List Char)
  | [] => none
  | x :: xs => if x = c then some xs else none

/-- Split off the leading run of decimal digits. -/
def takeDigits : List Char → List Char × List Char
  | [] => ([], [])
  | c :: cs =>
    if c.isDigit then
      let p := takeDigits cs
      (c :: p.1, p.2)
    else ([], c :: cs)

/-- Value of a fractional-second digit run in microseconds (digits
beyond the sixth are truncated, as `fromisoformat` does). -/
def fracToMicros (ds : List Char) : Nat :=
  let ds6 := ds.take 6
  (ds6.foldl (fun a c => a * 10 + (c.toNat - 48)) 0) * 10 ^ (6 - ds6.length)

/-- Parse an optional trailing UTC offset `±HH:MM`, returning the
offset in seconds; an empty remainder means no offset (taken as 0). -/
def parseOffset : List Char → Option (Int × List Char)
  | [] => some (0, [])
  | c :: cs =>
    if c = '+' || c = '-' then
      match readNatFixed 2 cs with
      | some (oh, cs1) =>
        match expectChar ':' cs1 with
        | some cs2 =>
          match readNatFixed 2 cs2 with
          | some (om, cs3) =>
            if oh ≤ 23 && om ≤ 59 then
              some ((if c = '+' then 1 else -1) * ((oh * 3600 + om * 60 : Nat) : Int), cs3)
            else none
          | none => none
        | none => none
      | none => none
    else none

/-- Gregorian leap-year test. -/
def isLeapYear (y : Nat) : Bool :=
  y % 4 == 0 && (y % 100 != 0 || y % 400 == 0)

/-- Number of days in a month. -/
def daysInMonth (y m : Nat) : Nat :=
  if m = 2 then (if isLeapYear y then 29 else 28)
  else if m = 4 || m = 6 || m = 9 || m = 11 then 30
  else 31

/-- Days from the Unix epoch (1970-01-01) to civil date `y-m-d`
(the standard days-from-civil computation, valid for `y ≥ 1`). -/
def daysFromCivil (y m d : Nat) : Int :=
  let y2 := if m ≤ 2 then y - 1 else y
  let era := y2 / 400
  let yoe := y2 - era * 400
  let mp := if 2 < m then m - 3 else m + 9
  let doy := (153 * mp + 2) / 5 + d - 1
  let doe := yoe * 365 + yoe / 4 - yoe / 100 + doy
  ((era * 146097 + doe : Nat) : Int) - 719468

/-- Model of `datetime.fromisoformat` (restricted to the shapes
described above), returning microseconds since the Unix epoch. -/
def fromisoformat (s : String) : Option Int := do
  let (y, r1) ← readNatFixed 4 s.data
  let r2 ← expectChar '-' r1
  let (mo, r3) ← readNatFixed 2 r2
  let r4 ← expectChar '-' r3
  let (d, r5) ← readNatFixed 2 r4
  let r6 ← expectChar 'T' r5
  let (h, r7) ← readNatFixed 2 r6
  let r8 ← expectChar ':' r7
  let (mi, r9) ← readNatFixed 2 r8
  let r10 ← expectChar ':' r9
  let (sec, r11) ← readNatFixed 2 r10
  let (frac, r12) ←
    match r11 with
    | '.' :: rest =>
      match takeDigits rest with
      | ([], _) => none
      | (ds, r) => some (fracToMicros ds, r)
    | _ => some (0, r11)
  match parseOffset r12 with
  | some (off, []) =>
    if 1 ≤ y && 1 ≤ mo && mo ≤ 12 && 1 ≤ d && d ≤ daysInMonth y mo &&
        h ≤ 23 && mi ≤ 59 && sec ≤ 59 then
      some (daysFromCivil y mo d * 86400000000 +
        (((h * 3600 + mi * 60 + sec) * 1000000 + frac : Nat) : Int) - off * 1000000)
    else none
  | _ => none

/-- `ts.replace('Z', '+00:00')`: the pattern is a single character, so
replacing every occurrence is a per-character expansion. -/
def replaceZ (s : String) : String :=
  ⟨s.data.foldr
    (fun c acc =>
      if c = 'Z' then '+' :: '0' :: '0' :: ':' :: '0' :: '0' :: acc else c :: acc)
    []⟩

/-- The timestamp-parsing step of the source:
`datetime.fromisoformat(ts.replace('Z', '+00:00'))`. -/
def pyParseTimestamp (s : String) : Option Int :=
  fromisoformat (replaceZ s)

/-! ### Timeline deduplicator

`deduplicate_messages` (identical in `chat_stats.py` and
`view_chat_history.py`): keep the first occurrence of each identity
key; the key is the `uuid` when non-empty, otherwise
`f"{timestamp}_{str(message)[:100]}"`.  `str(message)` — Python's
rendering of the message dict — is modelled by `pyStrMessage` for the
canonical body shape `{'content': [{'type': ..., 'text': ...}, ...]}`
(texts used in this development contain no quotes or backslashes, so
repr escaping is not modelled). -/

/-- Python `repr` of a plain string (no escaping needed for the
strings used here). -/
def pyRepr (s : String) : String := "'" ++ s ++ "'"

/-- Python `repr` of one content-block dict. -/
def pyReprBlock (b : ContentBlock) : String :=
  "\x7b'type': " ++ pyRepr b.type ++ ", 'text': " ++ pyRepr b.text ++ "\x7d"

/-- Python `str` of the message body dict `{'content': [...]}`. -/
def pyStrMessage (bs : List ContentBlock) : String :=
  "\x7b'content': [" ++ String.intercalate ", " (bs.map pyReprBlock) ++ "]\x7d"

/-- The identity key used by `deduplicate_messages`: the `uuid` if
non-empty (Python truthiness), else `f"{timestamp}_{content}"` with
`content = str(msg['message'])[:100]`. -/
def identifierOf (m : Message) : String :=
  if m.uuid ≠ "" then m.uuid
  else m.timestamp ++ "_" ++ (pyStrMessage m.content).take 100

/-- The seen-set loop of `deduplicate_messages` (the Python `set` is
modelled as the list of keys seen so far). -/
def dedupGo (seen : List String) : List Message → List Message
  | [] => []
  | m :: rest =>
    if identifierOf m ∈ seen then dedupGo seen rest
    else m :: dedupGo (identifierOf m :: seen) rest

/-- `deduplicate_messages`: drop every message whose identity key was
already seen, keeping first occurrences in order. -/
def deduplicate_messages (msgs : List Message) : List Message :=
  dedupGo [] msgs

/-! ### Work-time reconstructor (`calculate_total_time`) -/

/-- `IDLE_THRESHOLD = timedelta(minutes=30)` in microseconds. -/
def IDLE_THRESHOLD : Int := 1800000000

/-- `timedelta(hours=1)` in microseconds: the long-response
threshold. -/
def ONE_HOUR : Int := 3600000000

/-- The burst-collection condition of the inner scan (line 217):
`next_msg['type'] == 'assistant' or next_msg.get('has_tool_result')`. -/
def consumedPred (m : Message) : Bool :=
  m.type == "assistant" || m.has_tool_result

/-- The outer-scan candidate condition (lines 189 and 229):
`msg['type'] == 'user' and not msg.get('has_tool_result', False)`. -/
def isRealUserMsg (m : Message) : Bool :=
  m.type == "user" && !m.has_tool_result

/-- The `has_content` check (lines 191-197): some `text`-type content
block whose text has a character surviving `.strip()`. -/
def hasContent (m : Message) : Bool :=
  m.content.any (fun b => b.type == "text" && b.text.data.any (fun c => !c.isWhitespace))

/-- A message on which the outer scan opens a burst: a real user
message that passes the `has_content` check. -/
def isBurstStartCode (m : Message) : Bool :=
  isRealUserMsg m && hasContent m

/-- The inner collection loop (lines 214-233): walk forward consuming
every message satisfying `consumedPred` (parsing its timestamp, which
may fail — Python raises, modelled by `none`), stop at the first real
user message, skip anything else.  Returns the collected events
together with `assistant_msg_count` (incremented for every consumed
message) and `tool_use_count` (consumed messages with
`has_tool_use`). -/
def collectEvents : List Message → Option (List Event × Nat × Nat)
  | [] => some ([], 0, 0)
  | m :: rest =>
    if consumedPred m then
      match pyParseTimestamp m.timestamp with
      | none => none
      | some t =>
        match collectEvents rest with
        | none => none
        | some (evs, ac, tc) =>
          some (⟨t, m.has_tool_use, m.has_tool_result⟩ :: evs,
            ac + 1, tc + (if m.has_tool_use then 1 else 0))
    else if isRealUserMsg m then some ([], 0, 0)
    else collectEvents rest

/-- The event order used by `response_events.sort(key=lambda x:
x['time'])`. -/
def eventLe (a b : Event) : Prop := a.time ≤ b.time

instance : DecidableRel eventLe := fun a b => Int.decLe a.time b.time

instance : IsTotal Event eventLe := ⟨fun a b => Int.le_total a.time b.time⟩

instance : IsTrans Event eventLe := ⟨fun _ _ _ h1 h2 => Int.le_trans h1 h2⟩

/-- `response_events.sort(key=lambda x: x['time'])` (line 236): a
stable sort by event time (Python `list.sort` is stable; modelled by
stable insertion sort). -/
def sortEvents (evs : List Event) : List Event :=
  List.insertionSort eventLe evs

/-- `is_tool_execution` (lines 246-249): invocation flag on the
earlier event and result flag on the later event. -/
def is_tool_execution (current_event next_event : Event) : Bool :=
  current_event.has_tool_use && next_event.has_tool_result

/-- The gap-classification loop (lines 240-260): walk consecutive
event pairs; a gap is counted into `active_duration` when it is a
tool-execution gap or at most `IDLE_THRESHOLD`, otherwise it is
recorded as an idle period. -/
def classifyGaps : List Event → Int × List IdlePeriod
  | [] => (0, [])
  | [_] => (0, [])
  | e1 :: e2 :: rest =>
    let p := classifyGaps (e2 :: rest)
    let time_gap := e2.time - e1.time
    if is_tool_execution e1 e2 || decide (time_gap ≤ IDLE_THRESHOLD) then
      (time_gap + p.1, p.2)
    else (p.1, ⟨e1.time, e2.time, time_gap⟩ :: p.2)

/-- `total_duration` (line 263): last event time minus first event
time when there is more than one event, else zero. -/
def totalDurationOf : List Event → Int
  | [] => 0
  | [_] => 0
  | e :: rest => (rest.getLastD e).time - e.time

/-- User-question preview extraction (lines 267-271): text of the
first `text`-type content block, truncated to 100 characters. -/
def userTextOf (m : Message) : String :=
  match m.content.find? (fun b => b.type == "text") with
  | some b => b.text.take 100
  | none => ""

/-- The per-burst accounting after event collection (lines 236-287):
sort, classify gaps, compute the span, and — only when
`active_duration > 0` — contribute the active duration to the grand
total and, when additionally the span is at least one hour, emit a
`LongResponse`. -/
def burstCore (events : List Event) (user_text : String) (start_time : Int)
    (assistant_msg_count tool_use_count : Nat) : Int × Option LongResponse :=
  let response_events := sortEvents events
  let p := classifyGaps response_events
  let total_duration := totalDurationOf response_events
  if 0 < p.1 then
    (p.1,
      if ONE_HOUR ≤ total_duration then
        some ⟨user_text, start_time,
          ((response_events.getLastD ⟨start_time, false, false⟩).time),
          total_duration, p.1, p.2, assistant_msg_count, tool_use_count⟩
      else none)
  else (0, none)

/-- The whole `try` block for one burst (lines 205-287): parse the
question's timestamp, collect the response events after it (seeded
with a synthetic event at the question's time with both flags false),
and run the per-burst accounting.  `none` models an exception caught
by the `except: pass` at line 289: the burst contributes nothing. -/
def processBurst (m : Message) (rest : List Message) : Option (Int × Option LongResponse) :=
  match pyParseTimestamp m.timestamp with
  | none => none
  | some start_time =>
    match collectEvents rest with
    | none => none
    | some (evs, ac, tc) =>
      some (burstCore (⟨start_time, false, false⟩ :: evs) (userTextOf m) start_time ac tc)

/-- `calculate_total_time` (lines 167-294).  The Python outer loop
advances `i` by exactly one on every iteration (also after a burst),
so the translation recurses on the tail unconditionally; a burst is
opened at the head when it is a real user message passing the
`has_content` check, and a failed burst (`processBurst = none`)
contributes nothing. -/
def calculate_total_time : List Message → Int × List LongResponse
  | [] => (0, [])
  | m :: rest =>
    let p := calculate_total_time rest
    if isRealUserMsg m then
      if hasContent m then
        match processBurst m rest with
        | some (active, lr) => (active + p.1, lr.toList ++ p.2)
        | none => p
      else p
    else p


/-! ### Gap classification: helper lemmas -/

/-- The claim-level per-pair classification: a tool-execution gap
(invocation flag on the earlier event, result flag on the later) is
counted regardless of magnitude; otherwise a gap of at most
`IDLE_THRESHOLD` is counted; otherwise nothing is counted. -/
def gapContribSpec (p : Event × Event) : Int :=
  if p.1.has_tool_use = true ∧ p.2.has_tool_result = true then p.2.time - p.1.time
  else if p.2.time - p.1.time ≤ IDLE_THRESHOLD then p.2.time - p.1.time
  else 0

/-- The claim-level per-pair idle record: produced exactly when the
gap is neither a tool-execution gap nor within `IDLE_THRESHOLD`. -/
def idleSpec (p : Event × Event) : Option IdlePeriod :=
  if p.1.has_tool_use = true ∧ p.2.has_tool_result = true then none
  else if p.2.time - p.1.time ≤ IDLE_THRESHOLD then none
  else some ⟨p.1.time, p.2.time, p.2.time - p.1.time⟩

theorem classifyGaps_eq :
    ∀ evs : List Event,
      classifyGaps evs =
        (((evs.zip evs.tail).map gapContribSpec).sum,
          (evs.zip evs.tail).filterMap idleSpec)
  | [] => by simp [classifyGaps]
  | [e] => by simp [classifyGaps]
  | e1 :: e2 :: rest => by
    have ih := classifyGaps_eq (e2 :: rest)
    by_cases htool : e1.has_tool_use = true ∧ e2.has_tool_result = true
    · have hb : is_tool_execution e1 e2 = true := by
        simp [is_tool_execution, Bool.and_eq_true, htool.1, htool.2]
      simp [classifyGaps, hb, ih, gapContribSpec, idleSpec, htool]
    · have hb : is_tool_execution e1 e2 = false := by
        simpa [is_tool_execution, Bool.and_eq_true] using htool
      by_cases hgap : e2.time - e1.time ≤ IDLE_THRESHOLD
      · simp [classifyGaps, hb, hgap, ih, gapContribSpec, idleSpec, htool]
      · simp [classifyGaps, hb, hgap, ih, gapContribSpec, idleSpec, htool]

/-- Telescoping: the active duration plus the recorded idle durations
account exactly for the span from first to last event. -/
theorem classifyGaps_add_idle :
    ∀ evs : List Event,
      (classifyGaps evs).1 + (((classifyGaps evs).2).map IdlePeriod.duration).sum =
        totalDurationOf evs
  | [] => by simp [classifyGaps, totalDurationOf]
  | [e] => by simp [classifyGaps, totalDurationOf]
  | e1 :: e2 :: rest => by
    have ih := classifyGaps_add_idle (e2 :: rest)
    have hstep : (e2.time - e1.time) + totalDurationOf (e2 :: rest) =
        totalDurationOf (e1 :: e2 :: rest) := by
      cases rest with
      | nil => simp [totalDurationOf]
      | cons e3 rest2 =>
        simp only [totalDurationOf, List.getLastD_cons]
        omega
    by_cases hcond :
        (is_tool_execution e1 e2 || decide (e2.time - e1.time ≤ IDLE_THRESHOLD)) = true
    · simp only [classifyGaps, hcond, if_true]
      omega
    · simp only [classifyGaps, hcond, if_false, Bool.false_eq_true, List.map_cons,
        List.sum_cons]
      omega

/-- Every recorded idle period is strictly longer than
`IDLE_THRESHOLD` (in particular strictly positive). -/
theorem classifyGaps_idle_long :
    ∀ evs : List Event, ∀ x ∈ (classifyGaps evs).2, IDLE_THRESHOLD < x.duration
  | [] => by simp [classifyGaps]
  | [e] => by simp [classifyGaps]
  | e1 :: e2 :: rest => by
    have ih := classifyGaps_idle_long (e2 :: rest)
    by_cases hcond :
        (is_tool_execution e1 e2 || decide (e2.time - e1.time ≤ IDLE_THRESHOLD)) = true
    · simpa only [classifyGaps, hcond, if_true] using ih
    · simp only [classifyGaps, hcond, if_false, Bool.false_eq_true, List.mem_cons]
      intro x hx
      rcases hx with hx | hx
      · subst hx
        simp only [Bool.or_eq_true, decide_eq_true_eq, not_or, Bool.not_eq_true] at hcond
        show IDLE_THRESHOLD < e2.time - e1.time
        omega
      · exact ih x hx

/-- **C1.** For every burst processed by `calculate_total_time` (via
`burstCore`, which classifies the time-sorted response events with
`classifyGaps`) and every pair of consecutive time-sorted events: a
gap whose earlier event has the tool-invocation flag and whose later
event has the tool-result flag is added wholly to `active_duration`
regardless of magnitude; otherwise a gap of at most 30 minutes is
added to `active_duration`; otherwise it is recorded as an
`IdlePeriod{start, end, duration}` and excluded from
`active_duration`.  The test is asymmetric: invocation flag on the
earlier event, result flag on the later one (`gapContribSpec` /
`idleSpec` state the claim-level classification verbatim). -/
theorem burst_gap_classification (evs : List Event) :
    (classifyGaps (sortEvents evs)).1 =
      (((sortEvents evs).zip (sortEvents evs).tail).map gapContribSpec).sum ∧
    (classifyGaps (sortEvents evs)).2 =
      ((sortEvents evs).zip (sortEvents evs).tail).filterMap idleSpec := by
  have h := classifyGaps_eq (sortEvents evs)
  exact ⟨congrArg Prod.fst h, congrArg Prod.snd h⟩

/-- **C3.** For every burst, `active_duration ≤ total_span`, with
equality exactly when the idle-period list is empty; equivalently,
`total_span - active_duration` is the sum of the recorded idle
durations.  (Stated for an arbitrary event list, hence in particular
for the sorted event list of any burst.) -/
theorem burst_active_le_span (evs : List Event) :
    (classifyGaps evs).1 ≤ totalDurationOf evs ∧
    ((classifyGaps evs).1 = totalDurationOf evs ↔ (classifyGaps evs).2 = []) ∧
    totalDurationOf evs - (classifyGaps evs).1 =
      (((classifyGaps evs).2).map IdlePeriod.duration).sum := by
  have hadd := classifyGaps_add_idle evs
  have hlong := classifyGaps_idle_long evs
  have hpos : ∀ a ∈ ((classifyGaps evs).2).map IdlePeriod.duration, 0 < a := by
    intro a ha
    rcases List.mem_map.mp ha with ⟨x, hx, rfl⟩
    have := hlong x hx
    have hth : (0 : Int) < IDLE_THRESHOLD := by norm_num [IDLE_THRESHOLD]
    omega
  have hnn : 0 ≤ (((classifyGaps evs).2).map IdlePeriod.duration).sum :=
    List.sum_nonneg (fun a ha => le_of_lt (hpos a ha))
  refine ⟨by omega, ⟨?_, ?_⟩, by omega⟩
  · intro heq
    have hz : (((classifyGaps evs).2).map IdlePeriod.duration).sum = 0 := by omega
    cases hidle : (classifyGaps evs).2 with
    | nil => rfl
    | cons x xs =>
      exfalso
      have hx : 0 < x.duration := hpos x.duration (by simp [hidle])
      have hxs : 0 ≤ (xs.map IdlePeriod.duration).sum :=
        List.sum_nonneg (fun a ha => le_of_lt (hpos a (by simp [hidle, ha])))
      rw [hidle] at hz
      simp only [List.map_cons, List.sum_cons] at hz
      omega
  · intro hidle
    rw [hidle] at hadd
    simpa using hadd

/-- **C2.** A message starts a burst iff its role is `user`, its
`has_tool_result` flag is false, and some `text`-type content block
contains a non-whitespace character; any message failing this test is
passed over by the outer scan without creating a burst (in particular
whitespace-only user questions and tool-result-bearing user-role
messages). -/
theorem burst_start_iff (m : Message) (rest : List Message) :
    (isBurstStartCode m = true ↔
      m.type = "user" ∧ m.has_tool_result = false ∧
      ∃ b ∈ m.content, b.type = "text" ∧ ∃ c ∈ b.text.data, c.isWhitespace = false) ∧
    (isBurstStartCode m = false →
      calculate_total_time (m :: rest) = calculate_total_time rest) := by
  constructor
  · simp [isBurstStartCode, isRealUserMsg, hasContent, List.any_eq_true,
      Bool.and_eq_true, Bool.not_eq_true', and_assoc]
  · intro h
    simp only [calculate_total_time]
    by_cases h1 : isRealUserMsg m = true
    · have h2 : hasContent m = false := by
        unfold isBurstStartCode at h
        rw [h1] at h
        simpa using h
      simp [h1, h2]
    · simp [h1]

/-- A whitespace-only user question used as the concrete input of the
`burst_start_iff` witness. -/
def wsOnlyUser : Message :=
  ⟨"user", "2024-01-01T00:00:00Z", "w1", [⟨"text", "  \t "⟩], "", false, false⟩

theorem burst_start_iff_witness :
    calculate_total_time [wsOnlyUser] = calculate_total_time [] :=
  (burst_start_iff wsOnlyUser []).2 (by decide)

/-- Question message of the C4 counterexample burst. -/
def c4_question : Message :=
  ⟨"user", "2024-01-01T00:00:00Z", "c4q", [⟨"text", "do the thing"⟩], "", false, false⟩

/-- Assistant reply exactly one hour later, with no tool flags. -/
def c4_reply : Message :=
  ⟨"assistant", "2024-01-01T01:00:00Z", "c4a", [], "", false, false⟩

/-- **C4 counterexample.** A burst whose `total_span` is exactly one
hour but whose single gap is idle (one hour, no tool flags), so
`active_duration = 0`: the code emits no `LongResponseReport` (and
adds nothing to the total), contradicting the claim that a report is
emitted whenever `total_span` equals one hour. -/
theorem long_response_exact_hour_counterexample :
    isBurstStartCode c4_question = true ∧
    pyParseTimestamp c4_question.timestamp = some 1704067200000000 ∧
    pyParseTimestamp c4_reply.timestamp = some 1704070800000000 ∧
    (1704070800000000 - 1704067200000000 : Int) = ONE_HOUR ∧
    calculate_total_time [c4_question, c4_reply] = (0, []) :=
  ⟨by decide, by decide, by decide, by decide, by decide⟩

/-- **C4 (amended).** A burst emits a `LongResponseReport` iff its
`active_duration` is positive **and** its `total_span` is at least one
hour; the span comparison is `total_span >= 1 hour`, so (given
positive active duration) a span of exactly one hour is included and
any smaller span — even one microsecond less — is excluded. -/
theorem long_response_threshold (events : List Event) (ut : String) (st : Int)
    (ac tc : Nat) :
    ((burstCore events ut st ac tc).2).isSome ↔
      (0 < (classifyGaps (sortEvents events)).1 ∧
        ONE_HOUR ≤ totalDurationOf (sortEvents events)) := by
  simp only [burstCore]
  by_cases h1 : 0 < (classifyGaps (sortEvents events)).1
  · by_cases h2 : ONE_HOUR ≤ totalDurationOf (sortEvents events) <;>
      simp [h1, h2]
  · simp [h1]

/-- The inner loop's counters: `assistant_msg_count` is incremented
for **every** consumed message, and `tool_use_count` for every
consumed message with the invocation flag. -/
theorem collectEvents_counts (msgs : List Message) :
    ∀ evs ac tc, collectEvents msgs = some (evs, ac, tc) →
      ac = evs.length ∧ tc = (evs.filter (fun e => e.has_tool_use)).length := by
  induction msgs with
  | nil =>
    intro evs ac tc h
    simp only [collectEvents, Option.some.injEq, Prod.mk.injEq] at h
    obtain ⟨rfl, rfl, rfl⟩ := h
    simp
  | cons m rest ih =>
    intro evs ac tc h
    simp only [collectEvents] at h
    by_cases hc : consumedPred m = true
    · rw [if_pos hc] at h
      cases hp : pyParseTimestamp m.timestamp with
      | none => rw [hp] at h; exact absurd h (by simp)
      | some t =>
        rw [hp] at h
        cases hr : collectEvents rest with
        | none => rw [hr] at h; exact absurd h (by simp)
        | some p =>
          obtain ⟨evs2, ac2, tc2⟩ := p
          rw [hr] at h
          simp only [Option.some.injEq, Prod.mk.injEq] at h
          obtain ⟨rfl, rfl, rfl⟩ := h
          obtain ⟨ih1, ih2⟩ := ih evs2 ac2 tc2 hr
          cases htu : m.has_tool_use <;>
            simp [List.filter, htu, ih1, ih2]
    · rw [if_neg hc] at h
      by_cases hu : isRealUserMsg m = true
      · rw [if_pos hu] at h
        simp only [Option.some.injEq, Prod.mk.injEq] at h
        obtain ⟨rfl, rfl, rfl⟩ := h
        simp
      · rw [if_neg hu] at h
        exact ih evs ac tc h

/-- **C5 (amended).** In every emitted `LongResponseReport`,
`assistant_messages` equals the **total** number of collected response
events of the burst (every consumed message, whether assistant-role or
a tool-result carrier), and `tool_uses` equals the number of collected
events whose invocation flag is set. -/
theorem report_counts (m : Message) (rest : List Message) (active : Int)
    (r : LongResponse) (h : processBurst m rest = some (active, some r)) :
    ∃ evs ac tc, collectEvents rest = some (evs, ac, tc) ∧
      r.assistant_messages = evs.length ∧
      r.tool_uses = (evs.filter (fun e => e.has_tool_use)).length := by
  unfold processBurst at h
  cases hp : pyParseTimestamp m.timestamp with
  | none => rw [hp] at h; exact absurd h (by simp)
  | some st =>
    rw [hp] at h
    cases hr : collectEvents rest with
    | none => rw [hr] at h; exact absurd h (by simp)
    | some p =>
      obtain ⟨evs, ac, tc⟩ := p
      rw [hr] at h
      simp only [Option.some.injEq] at h
      refine ⟨evs, ac, tc, rfl, ?_⟩
      obtain ⟨h1, h2⟩ := collectEvents_counts rest evs ac tc hr
      simp only [burstCore] at h
      by_cases ha : 0 < (classifyGaps (sortEvents (⟨st, false, false⟩ :: evs))).1
      · rw [if_pos ha] at h
        by_cases hl : ONE_HOUR ≤ totalDurationOf (sortEvents (⟨st, false, false⟩ :: evs))
        · rw [if_pos hl, Prod.mk.injEq] at h
          obtain ⟨-, h3⟩ := h
          rw [Option.some.injEq] at h3
          subst h3
          exact ⟨h1, h2⟩
        · rw [if_neg hl, Prod.mk.injEq] at h
          exact absurd h.2 (by simp)
      · rw [if_neg ha, Prod.mk.injEq] at h
        exact absurd h.2 (by simp)

/-- Question message of the C5 counterexample burst. -/
def c5_question : Message :=
  ⟨"user", "2024-01-01T00:00:00Z", "c5q", [⟨"text", "please run it"⟩], "", false, false⟩

/-- A user-role tool-result carrier consumed into the burst. -/
def c5_toolcarrier : Message :=
  ⟨"user", "2024-01-01T00:10:00Z", "c5t", [], "", false, true⟩

/-- Assistant reply 65 minutes after the question. -/
def c5_reply : Message :=
  ⟨"assistant", "2024-01-01T01:05:00Z", "c5a", [], "", false, false⟩

/-- **C5 counterexample.** The emitted report's `assistant_messages`
is 2, but only one collected response event has role `assistant` (the
other is a user-role tool-result carrier), refuting the claim that the
count equals the number of assistant-role response events. -/
theorem report_counts_counterexample :
    (calculate_total_time [c5_question, c5_toolcarrier, c5_reply]).2.map
        LongResponse.assistant_messages ≠
      [([c5_toolcarrier, c5_reply].filter (fun x => x.type == "assistant")).length] ∧
    (calculate_total_time [c5_question, c5_toolcarrier, c5_reply]).2.map
        LongResponse.assistant_messages = [2] ∧
    ([c5_toolcarrier, c5_reply].filter (fun x => x.type == "assistant")).length = 1 :=
  ⟨by decide, by decide, by decide⟩

/-- The concrete `LongResponse` produced by the C5 burst, used by the
witness below. -/
def c5_report : LongResponse :=
  ⟨"please run it", 1704067200000000, 1704071100000000, 3900000000, 600000000,
    [⟨1704067800000000, 1704071100000000, 3300000000⟩], 2, 0⟩

set_option maxRecDepth 10000 in
theorem report_counts_witness :
    ∃ evs ac tc, collectEvents [c5_toolcarrier, c5_reply] = some (evs, ac, tc) ∧
      c5_report.assistant_messages = evs.length ∧
      c5_report.tool_uses = (evs.filter (fun e => e.has_tool_use)).length :=
  report_counts c5_question [c5_toolcarrier, c5_reply] 600000000 c5_report (by decide)

/-! ### Burst extents of the outer scan

The inner scan started at index `i` consumes exactly the messages at
indices `j` with `i < j < stopIdx msgs i` satisfying `consumedPred`
(when no timestamp fails to parse; on a parse failure the burst is
discarded whole, so the set below over-approximates what is actually
consumed, which only strengthens the disjointness results). -/

/-- Index of the first real user message of a list (its length if
none): where the inner scan of a burst stops. -/
def findRealUser : List Message → Nat
  | [] => 0
  | m :: rest => if isRealUserMsg m then 0 else findRealUser rest + 1

/-- One past the last index the inner scan started at `i` examines:
the index of the first real user message after `i`. -/
def stopIdx (msgs : List Message) (i : Nat) : Nat :=
  i + 1 + findRealUser (msgs.drop (i + 1))

/-- `j` is (an index of) a message the burst opened at `i` consumes
into its response-event list. -/
def ConsumedIn (msgs : List Message) (i j : Nat) : Prop :=
  i < j ∧ j < stopIdx msgs i ∧ j < msgs.length ∧
    consumedPred (msgs.getD j default) = true

instance (msgs : List Message) (i j : Nat) : Decidable (ConsumedIn msgs i j) := by
  unfold ConsumedIn
  infer_instance

/-- The outer scan opens a burst at index `i` (it visits every index,
advancing by one each iteration). -/
def BurstStartAt (msgs : List Message) (i : Nat) : Prop :=
  i < msgs.length ∧ isBurstStartCode (msgs.getD i default) = true

instance (msgs : List Message) (i : Nat) : Decidable (BurstStartAt msgs i) := by
  unfold BurstStartAt
  infer_instance

/-- `findRealUser` is minimal: it is at most the index of any real
user message. -/
theorem findRealUser_le (l : List Message) :
    ∀ t, t < l.length → isRealUserMsg (l.getD t default) = true →
      findRealUser l ≤ t := by
  induction l with
  | nil => intro t ht _; simp at ht
  | cons m rest ih =>
    intro t ht hu
    cases t with
    | zero =>
      simp only [List.getD_cons_zero] at hu
      simp [findRealUser, hu]
    | succ t2 =>
      simp only [findRealUser]
      by_cases hm : isRealUserMsg m = true
      · simp [hm]
      · rw [if_neg hm]
        have := ih t2 (by simpa using Nat.lt_of_succ_lt_succ ht)
          (by simpa using hu)
        omega

/-- A message satisfying the consumption condition can never satisfy
the burst-start condition. -/
theorem consumed_not_start (x : Message) (h : consumedPred x = true) :
    isBurstStartCode x = false := by
  unfold consumedPred at h
  unfold isBurstStartCode isRealUserMsg
  rcases Bool.or_eq_true _ _ |>.mp h with ha | ht
  · have : x.type = "assistant" := by simpa using ha
    simp [this]
  · simp [ht]

/-- If a real user message sits at index `t ≥ i + 1`, the inner scan
started at `i` stops at or before `t`. -/
theorem stopIdx_le (msgs : List Message) (i t : Nat) (hit : i < t)
    (htl : t < msgs.length) (hu : isRealUserMsg (msgs.getD t default) = true) :
    stopIdx msgs i ≤ t := by
  obtain ⟨k, rfl⟩ : ∃ k, t = (i + 1) + k := ⟨t - (i + 1), by omega⟩
  have hidx : (msgs.drop (i + 1)).getD k default = msgs.getD (i + 1 + k) default := by
    simp only [List.getD_eq_getElem?_getD, List.getElem?_drop]
  have hklen : k < (msgs.drop (i + 1)).length := by
    rw [List.length_drop]
    omega
  have hfr := findRealUser_le (msgs.drop (i + 1)) k hklen (by rw [hidx]; exact hu)
  unfold stopIdx
  omega

/-- **C6.** Messages consumed into one burst's response-event list are
never consumed by any other burst, and a consumed message never
starts a burst of its own: each message is consumed by at most one
burst, and the outer scan's resumption never re-opens a burst on a
consumed message. -/
theorem burst_consumption_disjoint (msgs : List Message) (i1 i2 j : Nat)
    (h1 : BurstStartAt msgs i1) (h2 : BurstStartAt msgs i2) (hne : i1 ≠ i2)
    (hj : ConsumedIn msgs i1 j) :
    ¬ ConsumedIn msgs i2 j ∧ ¬ BurstStartAt msgs j := by
  obtain ⟨hj1, hj2, hj3, hj4⟩ := hj
  constructor
  · intro hcontra
    obtain ⟨hc1, hc2, hc3, hc4⟩ := hcontra
    rcases Nat.lt_or_ge i1 i2 with hlt | hge
    · have hstart : isRealUserMsg (msgs.getD i2 default) = true := by
        have := h2.2
        unfold isBurstStartCode at this
        exact (Bool.and_eq_true _ _ |>.mp this).1
      have := stopIdx_le msgs i1 i2 hlt h2.1 hstart
      omega
    · have hlt2 : i2 < i1 := by omega
      have hstart : isRealUserMsg (msgs.getD i1 default) = true := by
        have := h1.2
        unfold isBurstStartCode at this
        exact (Bool.and_eq_true _ _ |>.mp this).1
      have := stopIdx_le msgs i2 i1 hlt2 h1.1 hstart
      omega
  · intro hcontra
    have := consumed_not_start (msgs.getD j default) hj4
    rw [hcontra.2] at this
    exact Bool.true_eq_false.mp this

/-- The consumption condition and the stop condition of the inner scan
are mutually exclusive. -/
theorem consumed_not_realUser (x : Message) (h : consumedPred x = true) :
    isRealUserMsg x = false := by
  unfold consumedPred at h
  unfold isRealUserMsg
  rcases Bool.or_eq_true _ _ |>.mp h with ha | ht
  · have : x.type = "assistant" := by simpa using ha
    simp [this]
  · simp [ht]

/-- The inner scan's event list selects exactly the `consumedPred`
messages strictly before the first real user message (`findRealUser`):
the selection that `ConsumedIn` describes by index. -/
theorem collectEvents_selection (l : List Message) :
    ∀ evs ac tc, collectEvents l = some (evs, ac, tc) →
      evs.length = ((l.take (findRealUser l)).filter consumedPred).length := by
  induction l with
  | nil =>
    intro evs ac tc h
    simp only [collectEvents, Option.some.injEq, Prod.mk.injEq] at h
    obtain ⟨rfl, -, -⟩ := h
    simp
  | cons m rest ih =>
    intro evs ac tc h
    simp only [collectEvents] at h
    by_cases hc : consumedPred m = true
    · rw [if_pos hc] at h
      cases hp : pyParseTimestamp m.timestamp with
      | none => rw [hp] at h; exact absurd h (by simp)
      | some t =>
        rw [hp] at h
        cases hr : collectEvents rest with
        | none => rw [hr] at h; exact absurd h (by simp)
        | some p =>
          obtain ⟨evs2, ac2, tc2⟩ := p
          rw [hr] at h
          simp only [Option.some.injEq, Prod.mk.injEq] at h
          obtain ⟨rfl, -, -⟩ := h
          have hnr := consumed_not_realUser m hc
          simp only [findRealUser, hnr, Bool.false_eq_true, if_false, List.take_succ_cons,
            List.filter_cons, hc, if_true, List.length_cons]
          exact congrArg Nat.succ (ih evs2 ac2 tc2 hr)
    · rw [if_neg hc] at h
      by_cases hu : isRealUserMsg m = true
      · rw [if_pos hu] at h
        simp only [Option.some.injEq, Prod.mk.injEq] at h
        obtain ⟨rfl, -, -⟩ := h
        simp [findRealUser, hu]
      · rw [if_neg hu] at h
        have hu2 : isRealUserMsg m = false := by
          cases hb : isRealUserMsg m
          · rfl
          · exact absurd hb hu
        have hc2 : consumedPred m = false := by
          cases hb : consumedPred m
          · rfl
          · exact absurd hb hc
        simp only [findRealUser, hu2, Bool.false_eq_true, if_false, List.take_succ_cons,
          List.filter_cons, hc2]
        exact ih evs ac tc h

/-- Concrete two-burst timeline for the `burst_consumption_disjoint`
witness: a question, a consumed assistant reply, a second question,
a second consumed reply. -/
def c6_timeline : List Message :=
  [⟨"user", "2024-01-01T00:00:00Z", "c6q1", [⟨"text", "first"⟩], "", false, false⟩,
   ⟨"assistant", "2024-01-01T00:01:00Z", "c6a1", [], "", false, false⟩,
   ⟨"user", "2024-01-01T00:05:00Z", "c6q2", [⟨"text", "second"⟩], "", false, false⟩,
   ⟨"assistant", "2024-01-01T00:06:00Z", "c6a2", [], "", false, false⟩]

theorem burst_consumption_disjoint_witness :
    ¬ ConsumedIn c6_timeline 2 1 ∧ ¬ BurstStartAt c6_timeline 1 :=
  burst_consumption_disjoint c6_timeline 0 2 1 (by decide) (by decide) (by decide)
    (by decide)

/-- **C7.** If parsing any of a burst's timestamps fails (the
question's own, or — via `collectEvents` — any consumed response
event's), the burst is silently skipped: the result over `m :: rest`
equals the result of continuing from the next message, so the burst
contributes nothing to the total and appends no report; the scan is
not aborted, the function is total (it never raises), and on empty
input it returns zero duration and an empty report list. -/
theorem malformed_burst_skipped (m : Message) (rest : List Message)
    (hfail : pyParseTimestamp m.timestamp = none ∨ collectEvents rest = none) :
    calculate_total_time (m :: rest) = calculate_total_time rest ∧
    calculate_total_time ([] : List Message) = (0, []) := by
  refine ⟨?_, rfl⟩
  simp only [calculate_total_time]
  by_cases h1 : isRealUserMsg m = true
  · by_cases h2 : hasContent m = true
    · have hpb : processBurst m rest = none := by
        unfold processBurst
        rcases hfail with hf | hf
        · simp [hf]
        · cases hp : pyParseTimestamp m.timestamp <;> simp [hp, hf]
      simp [h1, h2, hpb]
    · simp [h1, h2]
  · simp [h1]

/-- A burst-starting question whose timestamp is malformed, used as
the concrete input of the `malformed_burst_skipped` witness. -/
def badTsQuestion : Message :=
  ⟨"user", "not-a-timestamp", "bq", [⟨"text", "hello"⟩], "", false, false⟩

theorem malformed_burst_skipped_witness :
    calculate_total_time [badTsQuestion] = calculate_total_time [] ∧
    calculate_total_time ([] : List Message) = (0, []) :=
  malformed_burst_skipped badTsQuestion [] (Or.inl (by decide))

/-! ### Deduplicator: first-occurrence characterization -/

theorem dedupGo_sublist (seen : List String) :
    ∀ msgs : List Message, List.Sublist (dedupGo seen msgs) msgs := by
  intro msgs
  induction msgs generalizing seen with
  | nil => simp [dedupGo]
  | cons m rest ih =>
    simp only [dedupGo]
    by_cases hm : identifierOf m ∈ seen
    · rw [if_pos hm]
      exact List.Sublist.cons m (ih seen)
    · rw [if_neg hm]
      exact List.Sublist.cons₂ m (ih (identifierOf m :: seen))

theorem dedupGo_not_seen (seen : List String) :
    ∀ msgs : List Message, ∀ m ∈ dedupGo seen msgs, identifierOf m ∉ seen := by
  intro msgs
  induction msgs generalizing seen with
  | nil => simp [dedupGo]
  | cons x rest ih =>
    intro m hm
    simp only [dedupGo] at hm
    by_cases hx : identifierOf x ∈ seen
    · rw [if_pos hx] at hm
      exact ih seen m hm
    · rw [if_neg hx] at hm
      rcases List.mem_cons.mp hm with rfl | hm2
      · exact hx
      · have := ih (identifierOf x :: seen) m hm2
        intro hcontra
        exact this (List.mem_cons_of_mem _ hcontra)

theorem dedupGo_nodup (seen : List String) :
    ∀ msgs : List Message, ((dedupGo seen msgs).map identifierOf).Nodup := by
  intro msgs
  induction msgs generalizing seen with
  | nil => simp [dedupGo]
  | cons x rest ih =>
    simp only [dedupGo]
    by_cases hx : identifierOf x ∈ seen
    · rw [if_pos hx]
      exact ih seen
    · rw [if_neg hx]
      simp only [List.map_cons, List.nodup_cons]
      refine ⟨?_, ih (identifierOf x :: seen)⟩
      intro hcontra
      rcases List.mem_map.mp hcontra with ⟨y, hy, hid⟩
      have := dedupGo_not_seen (identifierOf x :: seen) rest y hy
      rw [hid] at this
      exact this (List.mem_cons_self _ _)

theorem dedupGo_complete (seen : List String) :
    ∀ msgs : List Message, ∀ m ∈ msgs,
      identifierOf m ∈ seen ∨ identifierOf m ∈ (dedupGo seen msgs).map identifierOf := by
  intro msgs
  induction msgs generalizing seen with
  | nil => simp
  | cons x rest ih =>
    intro m hm
    simp only [dedupGo]
    rcases List.mem_cons.mp hm with rfl | hm2
    · by_cases hx : identifierOf m ∈ seen
      · exact Or.inl hx
      · rw [if_neg hx]
        exact Or.inr (by simp)
    · by_cases hx : identifierOf x ∈ seen
      · rw [if_pos hx]
        exact ih seen m hm2
      · rw [if_neg hx]
        rcases ih (identifierOf x :: seen) m hm2 with hin | hin
        · rcases List.mem_cons.mp hin with heq | hin2
          · exact Or.inr (by simp [heq])
          · exact Or.inl hin2
        · exact Or.inr (by simp only [List.map_cons, List.mem_cons]; exact Or.inr hin)

theorem dedupGo_first (seen : List String) :
    ∀ msgs : List Message, ∀ m ∈ dedupGo seen msgs,
      msgs.find? (fun x => identifierOf x == identifierOf m) = some m := by
  intro msgs
  induction msgs generalizing seen with
  | nil => simp [dedupGo]
  | cons x rest ih =>
    intro m hm
    simp only [dedupGo] at hm
    by_cases hx : identifierOf x ∈ seen
    · rw [if_pos hx] at hm
      have hne : identifierOf x ≠ identifierOf m := by
        intro heq
        exact dedupGo_not_seen seen rest m hm (heq ▸ hx)
      rw [List.find?_cons_of_neg _ (by simpa using hne)]
      exact ih seen m hm
    · rw [if_neg hx] at hm
      rcases List.mem_cons.mp hm with rfl | hm2
      · rw [List.find?_cons_of_pos _ (by simp)]
      · have hne : identifierOf x ≠ identifierOf m := by
          intro heq
          have := dedupGo_not_seen (identifierOf x :: seen) rest m hm2
          exact this (heq ▸ List.mem_cons_self _ _)
        rw [List.find?_cons_of_neg _ (by simpa using hne)]
        exact ih (identifierOf x :: seen) m hm2

/-- **C8.** `deduplicate_messages` returns exactly the subsequence of
first occurrences of each distinct identity key, preserving input
order, where the key (`identifierOf`) is the `uuid` when non-empty and
otherwise `timestamp ++ "_" ++` the first 100 characters of the string
form of the message body; empty input yields empty output.  Stated as:
the output is an order-preserving sublist whose keys are pairwise
distinct, every input key occurs among the output keys, and every kept
message is the first of its key in the input. -/
theorem dedup_first_occurrences (msgs : List Message) :
    List.Sublist (deduplicate_messages msgs) msgs ∧
    ((deduplicate_messages msgs).map identifierOf).Nodup ∧
    (∀ m ∈ msgs, identifierOf m ∈ (deduplicate_messages msgs).map identifierOf) ∧
    (∀ m ∈ deduplicate_messages msgs,
      msgs.find? (fun x => identifierOf x == identifierOf m) = some m) ∧
    deduplicate_messages ([] : List Message) = [] := by
  refine ⟨dedupGo_sublist [] msgs, dedupGo_nodup [] msgs, ?_, dedupGo_first [] msgs, rfl⟩
  intro m hm
  rcases dedupGo_complete [] msgs m hm with hin | hin
  · simp at hin
  · exact hin

/-- Two duplicated messages (same native `uuid`) used as the concrete
input of the `dedup_first_occurrences` witness. -/
def c8_orig : Message :=
  ⟨"user", "2024-01-01T00:00:00Z", "same-uuid", [⟨"text", "hi"⟩], "", false, false⟩

/-- A second copy of the same record from an overlapping log file. -/
def c8_copy : Message :=
  ⟨"user", "2024-01-01T00:00:00Z", "same-uuid", [⟨"text", "hi"⟩], "", false, false⟩

theorem dedup_first_occurrences_witness :
    identifierOf c8_orig ∈ (deduplicate_messages [c8_orig, c8_copy]).map identifierOf ∧
    [c8_orig, c8_copy].find?
      (fun x => identifierOf x == identifierOf c8_orig) = some c8_orig :=
  ⟨(dedup_first_occurrences [c8_orig, c8_copy]).2.2.1 c8_orig (by decide),
    (dedup_first_occurrences [c8_orig, c8_copy]).2.2.2.1 c8_orig (by decide)⟩

/-- First C10 message: empty uuid, 70-character text. -/
def c10_first : Message :=
  ⟨"user", "2024-01-01T00:00:00Z", "",
    [⟨"text", "aaaaaaaaaaaaaaaaaaaaaaaaaaaaaaaaaaaaaaaaaaaaaaaaaaaaaaaaaaaaaaaaaaaaaa"⟩],
    "", false, false⟩

/-- Second C10 message: same timestamp, text agreeing with the first
on the first 61 characters (hence the derived keys agree on their
100-character prefix) but differing beyond. -/
def c10_second : Message :=
  ⟨"user", "2024-01-01T00:00:00Z", "",
    [⟨"text", "aaaaaaaaaaaaaaaaaaaaaaaaaaaaaaaaaaaaaaaaaaaaaaaaaaaaaaaaaaaaabbbbbbbbb"⟩],
    "", false, false⟩

set_option maxRecDepth 40000 in
/-- **C10.** The derived identity key (timestamp + first 100
characters of the message body's string form) is not injective:
two distinct, non-duplicate messages — empty uuid, equal timestamps,
body string forms agreeing on the first 100 characters but differing
beyond — are conflated, and `deduplicate_messages` keeps only the
first. -/
theorem dedup_conflation :
    c10_first ≠ c10_second ∧
    pyStrMessage c10_first.content ≠ pyStrMessage c10_second.content ∧
    c10_first.uuid = "" ∧
    c10_second.uuid = "" ∧
    c10_first.timestamp = c10_second.timestamp ∧
    (pyStrMessage c10_first.content).take 100 =
      (pyStrMessage c10_second.content).take 100 ∧
    deduplicate_messages [c10_first, c10_second] = [c10_first] :=
  ⟨by decide, by decide, rfl, rfl, rfl, by decide, by decide⟩

/-! ### The global timestamp sort of `get_stats`

`get_stats` deduplicates and then sorts the whole timeline with
`all_messages.sort(key=lambda x: x['timestamp'])`: a stable sort keyed
on the **raw timestamp string**, which Python compares lexicographically
by code point (`strLeb` below), before handing the list to
`calculate_total_time`. -/

/-- Python string `<=`: lexicographic comparison by code point. -/
def strLeb : List Char → List Char → Bool
  | [], _ => true
  | _ :: _, [] => false
  | a :: as, b :: bs =>
    if a.toNat < b.toNat then true
    else if b.toNat < a.toNat then false
    else strLeb as bs

theorem strLeb_total : ∀ a b : List Char, strLeb a b = true ∨ strLeb b a = true
  | [], _ => Or.inl rfl
  | _ :: _, [] => Or.inr rfl
  | x :: as, y :: bs => by
    rcases Nat.lt_trichotomy x.toNat y.toNat with h | h | h
    · left
      simp [strLeb, h]
    · rcases strLeb_total as bs with ih | ih
      · left
        rw [strLeb, if_neg (by omega), if_neg (by omega)]
        exact ih
      · right
        rw [strLeb, if_neg (by omega), if_neg (by omega)]
        exact ih
    · right
      simp [strLeb, h]

theorem strLeb_trans :
    ∀ a b c : List Char, strLeb a b = true → strLeb b c = true → strLeb a c = true
  | [], _, _ => by
    intro _ _
    rfl
  | _ :: _, [], _ => by
    intro h1 _
    exact absurd h1 (by simp [strLeb])
  | _ :: _, _ :: _, [] => by
    intro _ h2
    exact absurd h2 (by simp [strLeb])
  | x :: as, y :: bs, z :: cs => by
    intro h1 h2
    rw [strLeb] at h1 h2 ⊢
    rcases Nat.lt_trichotomy x.toNat y.toNat with hxy | hxy | hxy
    · rcases Nat.lt_trichotomy y.toNat z.toNat with hyz | hyz | hyz
      · rw [if_pos (by omega)]
      · rw [if_pos (by omega)]
      · rw [if_neg (by omega), if_pos (by omega)] at h2
        exact absurd h2 (by simp)
    · rw [if_neg (by omega), if_neg (by omega)] at h1
      rcases Nat.lt_trichotomy y.toNat z.toNat with hyz | hyz | hyz
      · rw [if_pos (by omega)]
      · rw [if_neg (by omega), if_neg (by omega)] at h2
        rw [if_neg (by omega), if_neg (by omega)]
        exact strLeb_trans as bs cs h1 h2
      · rw [if_neg (by omega), if_pos (by omega)] at h2
        exact absurd h2 (by simp)
    · rw [if_neg (by omega), if_pos (by omega)] at h1
      exact absurd h1 (by simp)

/-- Python `a <= b` on strings. -/
def pyStrLe (a b : String) : Bool := strLeb a.data b.data

/-- The key order of the global sort: compare raw timestamp
strings. -/
def tsLe (a b : Message) : Prop := pyStrLe a.timestamp b.timestamp = true

instance : DecidableRel tsLe := fun a b => by
  unfold tsLe
  infer_instance

instance : IsTotal Message tsLe :=
  ⟨fun a b => strLeb_total a.timestamp.data b.timestamp.data⟩

instance : IsTrans Message tsLe :=
  ⟨fun _ _ _ h1 h2 => strLeb_trans _ _ _ h1 h2⟩

/-- `all_messages.sort(key=lambda x: x['timestamp'])` (line 437 of
`chat_stats.py`): stable sort on the raw timestamp string. -/
def sortByTimestamp (msgs : List Message) : List Message :=
  List.insertionSort tsLe msgs

/-- The pipeline of `get_stats` feeding the reconstructor:
deduplicate, then sort by raw timestamp string (lines 431-445). -/
def statsTimeline (msgs : List Message) : List Message :=
  sortByTimestamp (deduplicate_messages msgs)

/-- "The instant denoted by the timestamp of `a` is at most that of
`b`" (vacuous when either fails to parse). -/
def instLe (a b : Message) : Prop :=
  ∀ ta tb, pyParseTimestamp a.timestamp = some ta →
    pyParseTimestamp b.timestamp = some tb → ta ≤ tb

/-- **C9 (amended).** The list handed to the reconstructor is always
ascending in the raw timestamp strings' lexicographic (code-point)
order — the order the sort actually uses; it is ascending as
*instants* only under the extra assumption that string order implies
instant order for the messages of the input (true for uniform-format
UTC timestamps, refuted for mixed UTC offsets by
`stats_sorted_counterexample`). -/
theorem stats_sorted (msgs : List Message) :
    List.Pairwise tsLe (statsTimeline msgs) ∧
    ((∀ a ∈ msgs, ∀ b ∈ msgs, tsLe a b → instLe a b) →
      List.Pairwise instLe (statsTimeline msgs)) := by
  have hsorted : List.Pairwise tsLe (statsTimeline msgs) :=
    List.sorted_insertionSort tsLe (deduplicate_messages msgs)
  refine ⟨hsorted, ?_⟩
  intro hmono
  have hmem : ∀ x ∈ statsTimeline msgs, x ∈ msgs := by
    intro x hx
    have hx2 : x ∈ deduplicate_messages msgs :=
      (List.perm_insertionSort tsLe (deduplicate_messages msgs)).mem_iff.mp hx
    exact (dedupGo_sublist [] msgs).subset hx2
  exact List.Pairwise.imp_of_mem
    (fun ha hb hr => hmono _ (hmem _ ha) _ (hmem _ hb) hr) hsorted

/-- C9 counterexample, earlier instant: 09:00 UTC. -/
def c9_early : Message :=
  ⟨"user", "2025-01-01T09:00:00Z", "c9a", [⟨"text", "x"⟩], "", false, false⟩

/-- C9 counterexample, later string but earlier instant: 10:00 at
offset +05:00 is 05:00 UTC. -/
def c9_late : Message :=
  ⟨"user", "2025-01-01T10:00:00+05:00", "c9b", [⟨"text", "y"⟩], "", false, false⟩

/-- **C9 counterexample.** With mixed UTC offsets the string-keyed
sort does not coincide with chronological order: the handed list keeps
`c9_early` (instant 09:00 UTC) before `c9_late` (instant 05:00 UTC),
violating "for all i < j the instant of message i is at most the
instant of message j". -/
theorem stats_sorted_counterexample :
    statsTimeline [c9_early, c9_late] = [c9_early, c9_late] ∧
    pyParseTimestamp c9_early.timestamp = some 1735722000000000 ∧
    pyParseTimestamp c9_late.timestamp = some 1735707600000000 ∧
    ¬ instLe c9_early c9_late := by
  refine ⟨by decide, by decide, by decide, ?_⟩
  intro h
  have := h 1735722000000000 1735707600000000 (by decide) (by decide)
  omega

/-- First witness message: a fixed UTC timestamp. -/
def c9w_a : Message :=
  ⟨"user", "2024-03-01T00:00:00Z", "c9wa", [⟨"text", "p"⟩], "", false, false⟩

/-- Second witness message: same timestamp, different uuid. -/
def c9w_b : Message :=
  ⟨"user", "2024-03-01T00:00:00Z", "c9wb", [⟨"text", "q"⟩], "", false, false⟩

theorem stats_sorted_witness :
    List.Pairwise instLe (statsTimeline [c9w_a, c9w_b]) := by
  apply (stats_sorted [c9w_a, c9w_b]).2
  intro a ha b hb hle ta tb hta htb
  fin_cases ha <;> fin_cases hb <;>
    (simp only [show pyParseTimestamp c9w_a.timestamp = some 1709251200000000 from
        by decide,
      show pyParseTimestamp c9w_b.timestamp = some 1709251200000000 from by decide,
      Option.some.injEq] at hta htb) <;>
    omega
